import Mathlib

/-!
Verification of the denokv LMDB adapter (`src/lib.rs`).

The development shallowly embeds the adapter's value/key codec
(`LmdbDKvValue` / `LmdbDKvKey` `BytesEncode`/`BytesDecode` impls) and its
`snapshot_read` range-read engine. Byte strings are `List Nat` (each element a
byte value), `u64` is `Nat` with well-formedness `< 2^64`, and a fallible Rust
call is modelled with a three-valued outcome that distinguishes a returned
`Err` from a crash of the process (a Rust panic, e.g. `expect` or an
out-of-bounds `split_at`), since the source uses both.
-/

namespace DenokvLmdb

/-- `denokv_proto::KvValue` as used by the adapter: an unsigned 64-bit
integer, a raw byte blob, or an opaque serialized ("V8") blob. -/
inductive KvValue : Type where
  | U64 (n : Nat)
  | Bytes (bs : List Nat)
  | V8 (bs : List Nat)
deriving DecidableEq

/-- A `u64` value is well formed when it fits in 64 bits; blob payload bytes
are byte values. -/
def KvValue.wf : KvValue → Prop
  | .U64 n => n < 2 ^ 64
  | .Bytes bs => ∀ b ∈ bs, b < 256
  | .V8 bs => ∀ b ∈ bs, b < 256

/-- Outcome of calling a fallible Rust function: it returned `Ok`, it
returned `Err` (an error value the caller receives), or it crashed
(diverged with a Rust panic, which the caller never observes as a value). -/
inductive ROutcome (α : Type) : Type where
  | ok (v : α)
  | err
  | crash
deriving DecidableEq

def ROutcome.isOk {α : Type} : ROutcome α → Bool
  | .ok _ => true
  | _ => false

def ROutcome.toOption {α : Type} : ROutcome α → Option α
  | .ok v => some v
  | _ => none

/-- `k`-byte little-endian representation of `n` (the first byte is the least
significant), as produced digit by digit by `u64::to_le_bytes`. -/
def natToLeBytes : Nat → Nat → List Nat
  | 0, _ => []
  | k + 1, n => n % 256 :: natToLeBytes k (n / 256)

/-- `u64::to_le_bytes`: exactly 8 bytes, little-endian. -/
def u64ToLeBytes (n : Nat) : List Nat := natToLeBytes 8 n

/-- `u64::from_le_bytes`: reassemble the integer from little-endian bytes. -/
def u64FromLeBytes : List Nat → Nat
  | [] => 0
  | b :: bs => b + 256 * u64FromLeBytes bs

/-- `<LmdbDKvValue as BytesDecode>::bytes_decode` (src/lib.rs:41-58).
The Rust source copies the buffer, calls `vec.split_at(1)` — which panics on
an empty buffer — and inspects the tag byte: tag `0` converts the remaining
bytes through `try_into().expect(..)`, which panics unless exactly 8 bytes
remain, and reads them little-endian; tag `1` yields `KvValue::Bytes`; every
other tag yields `KvValue::V8`. The function never constructs an `Err`. -/
def LmdbDKvValue.bytes_decode (bytes : List Nat) : ROutcome KvValue :=
  match bytes with
  | [] => .crash
  | tag :: list =>
    if tag = 0 then
      if list.length = 8 then .ok (.U64 (u64FromLeBytes list)) else .crash
    else if tag = 1 then .ok (.Bytes list)
    else .ok (.V8 list)

/-- `<LmdbDKvValue as BytesEncode>::bytes_encode` (src/lib.rs:60-79):
a tag byte (`2` for V8, `1` for Bytes, `0` otherwise i.e. U64) followed by
the raw blob, or the 8 little-endian bytes of the integer. Always `Ok`. -/
def LmdbDKvValue.bytes_encode (item : KvValue) : List Nat :=
  (match item with
    | .V8 _ => 2
    | .Bytes _ => 1
    | .U64 _ => 0) ::
  (match item with
    | .V8 val => val
    | .Bytes val => val
    | .U64 val => u64ToLeBytes val)

/-- `<LmdbDKvKey as BytesDecode>::bytes_decode` (src/lib.rs:23-31): copies the
bytes and always returns `Ok`. -/
def LmdbDKvKey.bytes_decode (bytes : List Nat) : ROutcome (List Nat) :=
  .ok bytes

/-- `<LmdbDKvKey as BytesEncode>::bytes_encode` (src/lib.rs:33-39): clones the
byte vector unchanged; always `Ok`. -/
def LmdbDKvKey.bytes_encode (item : List Nat) : List Nat := item

/-- Strict lexicographic (unsigned byte-wise) order on byte strings; a strict
prefix sorts first. This is LMDB's default key comparison, which the engine's
range cursors follow. -/
def lexLt : List Nat → List Nat → Bool
  | [], [] => false
  | [], _ :: _ => true
  | _ :: _, [] => false
  | a :: as_, b :: bs =>
    if a < b then true
    else if b < a then false
    else lexLt as_ bs

/-- Reflexive lexicographic order: `a ≤ b` iff `a < b` or `a = b`. -/
def lexLe (a b : List Nat) : Bool := lexLt a b || a == b

/-- `denokv_proto::ReadRange` as consumed by `snapshot_read`: half-open byte
range plus direction flag (`endKey` stands for the Rust field `end`, a
reserved word in Lean). -/
structure ReadRange : Type where
  start : List Nat
  endKey : List Nat
  reverse : Bool
deriving DecidableEq

/-- `denokv_proto::KvEntry`: the triple returned per matching key. -/
structure KvEntry : Type where
  key : List Nat
  value : KvValue
  versionstamp : List Nat
deriving DecidableEq

/-- `denokv_proto::ReadRangeOutput`: the entry list for one range request. -/
structure ReadRangeOutput : Type where
  entries : List KvEntry
deriving DecidableEq

/-- Read consistency level from `denokv_proto::SnapshotReadOptions`; the
adapter binds the whole options argument to `_` and never reads it. -/
inductive Consistency : Type where
  | strong
  | eventual
deriving DecidableEq

/-- `denokv_proto::SnapshotReadOptions`, ignored by the adapter. -/
structure SnapshotReadOptions : Type where
  consistency : Consistency
deriving DecidableEq

/-- The LMDB table contents observed by one read transaction: the association
list of (key bytes, stored value bytes), in the engine's key order. The
theorems that need the engine's ordering invariant assume the keys strictly
ascending under `lexLt`. -/
abbrev Store : Type := List (List Nat × List Nat)

/-- The engine's range scan `db.range(txn, &(&start..&end))` over the
snapshot: every stored pair whose key is ≥ `s` (bound included) and < `e`
(bound excluded), in stored order. -/
def dbRange (store : Store) (s e : List Nat) : Store :=
  store.filter fun kv => !lexLt kv.1 s && lexLt kv.1 e

/-- Decoding one cursor item into the `KvEntry` that `snapshot_read` builds
(src/lib.rs:139-143): the key decodes by copy, the value through
`LmdbDKvValue.bytes_decode` (whose crash propagates), and the versionstamp is
the fixed `[0; 10]`. -/
def decodeEntry (kv : List Nat × List Nat) : ROutcome KvEntry :=
  match LmdbDKvValue.bytes_decode kv.2 with
  | .ok v => .ok { key := kv.1, value := v, versionstamp := List.replicate 10 0 }
  | .err => .err
  | .crash => .crash

/-- Driving the `.flatten()`-ed iterator to completion with `.collect()`
(src/lib.rs:119-144): an `Err` item is silently dropped by `flatten`, an `Ok`
item is kept, and a crash while decoding an item crashes the whole call. -/
def collectFlatten {α : Type} : List (ROutcome α) → ROutcome (List α)
  | [] => .ok []
  | .crash :: _ => .crash
  | .err :: rest => collectFlatten rest
  | .ok v :: rest =>
    match collectFlatten rest with
    | .ok vs => .ok (v :: vs)
    | .err => .err
    | .crash => .crash

/-- The cursor walk one request performs: `db.rev_range` when `req.reverse`
is set, `db.range` otherwise (src/lib.rs:119-135); both visit the same
half-open range, only the emission order differs. -/
def scannedRange (store : Store) (req : ReadRange) : Store :=
  if req.reverse then (dbRange store req.start req.endKey).reverse
  else dbRange store req.start req.endKey

/-- Serving one `ReadRange` from the snapshot (the body of the request loop,
src/lib.rs:114-145): scan the half-open range, reversed when `req.reverse`,
and decode every item into a `KvEntry`. -/
def readOneRange (store : Store) (req : ReadRange) : ROutcome ReadRangeOutput :=
  match collectFlatten ((scannedRange store req).map decodeEntry) with
  | .ok es => .ok ⟨es⟩
  | .err => .err
  | .crash => .crash

/-- The request loop of `snapshot_read`, accumulating one
`ReadRangeOutput` per request into `res` (src/lib.rs:112-146). -/
def snapshotReadLoop (store : Store) :
    List ReadRange → List ReadRangeOutput → ROutcome (List ReadRangeOutput)
  | [], acc => .ok acc
  | req :: rest, acc =>
    match readOneRange store req with
    | .ok out => snapshotReadLoop store rest (acc ++ [out])
    | .err => .err
    | .crash => .crash

/-- `LmdbDatabase::snapshot_read` (src/lib.rs:107-149): one read-only
transaction (`store` is the snapshot it sees) is opened before the first
request is processed and serves the whole batch; the options argument is
ignored. -/
def snapshot_read (store : Store) (requests : List ReadRange)
    (_options : SnapshotReadOptions) : ROutcome (List ReadRangeOutput) :=
  snapshotReadLoop store requests []

/-- Specification-side description of one range read, following the claim's
words: the output holds exactly the decodable stored entries whose key `k`
satisfies `start ≤ k < end` in lexicographic byte order, carrying the all-zero
versionstamp, in ascending key order unless `reverse` is set (then
descending), and a `start = end` request yields no entries. -/
def rangeReadSpec (store : Store) (req : ReadRange) (out : ReadRangeOutput) : Prop :=
  (∀ e : KvEntry, e ∈ out.entries ↔
    (∃ raw, (e.key, raw) ∈ store ∧ LmdbDKvValue.bytes_decode raw = .ok e.value) ∧
      e.versionstamp = List.replicate 10 0 ∧
      lexLe req.start e.key = true ∧ lexLt e.key req.endKey = true) ∧
  (req.reverse = false → out.entries.Pairwise fun a b => lexLt a.key b.key = true) ∧
  (req.reverse = true → out.entries.Pairwise fun a b => lexLt b.key a.key = true) ∧
  (req.start = req.endKey → out.entries = [])

/-- Specification-side description of the whole batch, used for the
single-snapshot claim: every request is evaluated independently against the
same snapshot `store`, with the first failure propagated in request order. -/
def batchReadSpec (store : Store) : List ReadRange → ROutcome (List ReadRangeOutput)
  | [] => .ok []
  | req :: rest =>
    match readOneRange store req with
    | .ok out =>
      match batchReadSpec store rest with
      | .ok outs => .ok (out :: outs)
      | .err => .err
      | .crash => .crash
    | .err => .err
    | .crash => .crash

/-! ## Helper lemmas -/

theorem lexLt_irrefl (a : List Nat) : lexLt a a = false := by
  induction a with
  | nil => rfl
  | cons x xs ih => simp [lexLt, ih]

theorem lexLt_eq_false_iff : ∀ a b : List Nat, lexLt a b = false ↔ lexLe b a = true := by
  intro a
  induction a with
  | nil => intro b; cases b <;> simp [lexLt, lexLe]
  | cons x xs ih =>
    intro b
    cases b with
    | nil => simp [lexLt, lexLe]
    | cons y ys =>
      rcases Nat.lt_trichotomy x y with h | h | h
      · simp [lexLt, lexLe, h, Nat.lt_asymm h, Nat.ne_of_lt h, (Nat.ne_of_lt h).symm]
      · subst h
        simp [lexLt, lexLe, ih ys]
      · simp [lexLt, lexLe, h, Nat.lt_asymm h, Nat.ne_of_lt h, (Nat.ne_of_lt h).symm]

theorem not_lexLt_eq (a b : List Nat) : (!lexLt a b) = lexLe b a := by
  cases h : lexLt a b with
  | false => simpa using (lexLt_eq_false_iff a b).mp h
  | true =>
    cases h' : lexLe b a with
    | false => rfl
    | true =>
      exfalso
      have := (lexLt_eq_false_iff a b).mpr h'
      rw [h] at this
      cases this

theorem ROutcome.isOk_iff {α : Type} {r : ROutcome α} :
    r.isOk = true ↔ ∃ v, r = .ok v := by
  cases r <;> simp [ROutcome.isOk]

theorem ROutcome.toOption_eq_some {α : Type} {r : ROutcome α} {v : α} :
    r.toOption = some v ↔ r = .ok v := by
  cases r <;> simp [ROutcome.toOption]

theorem collectFlatten_ok {α : Type} :
    ∀ l : List (ROutcome α), (∀ r ∈ l, r ≠ ROutcome.crash) →
      collectFlatten l = .ok (l.filterMap ROutcome.toOption)
  | [], _ => rfl
  | .crash :: rest, h => absurd rfl (h _ (List.mem_cons_self _ _))
  | .err :: rest, h => by
    simpa [collectFlatten, ROutcome.toOption] using
      collectFlatten_ok rest fun r hr => h r (List.mem_cons_of_mem _ hr)
  | .ok v :: rest, h => by
    simp [collectFlatten, ROutcome.toOption,
      collectFlatten_ok rest fun r hr => h r (List.mem_cons_of_mem _ hr)]

theorem collectFlatten_crash {α : Type} :
    ∀ l : List (ROutcome α), ROutcome.crash ∈ l → collectFlatten l = .crash
  | [], h => absurd h (List.not_mem_nil _)
  | .crash :: rest, _ => rfl
  | .err :: rest, h => by
    have hr : ROutcome.crash ∈ rest := by
      rcases List.mem_cons.mp h with h' | h'
      · cases h'
      · exact h'
    simpa [collectFlatten] using collectFlatten_crash rest hr
  | .ok v :: rest, h => by
    have hr : ROutcome.crash ∈ rest := by
      rcases List.mem_cons.mp h with h' | h'
      · cases h'
      · exact h'
    simp [collectFlatten, collectFlatten_crash rest hr]

theorem collectFlatten_ne_err {α : Type} :
    ∀ l : List (ROutcome α), collectFlatten l ≠ .err
  | [] => by simp [collectFlatten]
  | .crash :: rest => by simp [collectFlatten]
  | .err :: rest => by simpa [collectFlatten] using collectFlatten_ne_err rest
  | .ok v :: rest => by
    have := collectFlatten_ne_err rest
    simp only [collectFlatten]
    cases h : collectFlatten rest with
    | ok vs => simp
    | err => exact absurd h this
    | crash => simp

theorem eq_filterMap_of_collectFlatten_ok {α : Type} {l : List (ROutcome α)}
    {vs : List α} (h : collectFlatten l = .ok vs) :
    vs = l.filterMap ROutcome.toOption := by
  by_cases hc : ROutcome.crash ∈ l
  · rw [collectFlatten_crash l hc] at h; cases h
  · rw [collectFlatten_ok l fun r hr he => hc (he ▸ hr)] at h
    exact (ROutcome.ok.inj h).symm

theorem bytes_decode_ne_err (bs : List Nat) :
    LmdbDKvValue.bytes_decode bs ≠ ROutcome.err := by
  cases bs with
  | nil => simp [LmdbDKvValue.bytes_decode]
  | cons t rest =>
    simp only [LmdbDKvValue.bytes_decode]
    split_ifs <;> simp

theorem decodeEntry_ne_err (kv : List Nat × List Nat) :
    decodeEntry kv ≠ ROutcome.err := by
  cases h : LmdbDKvValue.bytes_decode kv.2 with
  | ok v => simp [decodeEntry, h]
  | err => exact absurd h (bytes_decode_ne_err kv.2)
  | crash => simp [decodeEntry, h]

theorem decodeEntry_ok_of (kv : List Nat × List Nat) {v : KvValue}
    (h : LmdbDKvValue.bytes_decode kv.2 = .ok v) :
    decodeEntry kv = .ok ⟨kv.1, v, List.replicate 10 0⟩ := by
  simp [decodeEntry, h]

theorem decodeEntry_ok_elim {kv : List Nat × List Nat} {e : KvEntry}
    (h : decodeEntry kv = .ok e) :
    LmdbDKvValue.bytes_decode kv.2 = .ok e.value ∧ e.key = kv.1 ∧
      e.versionstamp = List.replicate 10 0 := by
  cases hd : LmdbDKvValue.bytes_decode kv.2 with
  | ok v =>
    rw [decodeEntry_ok_of kv hd] at h
    have he := ROutcome.ok.inj h
    subst he
    exact ⟨rfl, rfl, rfl⟩
  | err => simp [decodeEntry, hd] at h
  | crash => simp [decodeEntry, hd] at h

theorem decodeEntry_crash_iff {kv : List Nat × List Nat} :
    decodeEntry kv = .crash ↔ LmdbDKvValue.bytes_decode kv.2 = .crash := by
  cases hd : LmdbDKvValue.bytes_decode kv.2 with
  | ok v => simp [decodeEntry, hd]
  | err => exact absurd hd (bytes_decode_ne_err kv.2)
  | crash => simp [decodeEntry, hd]

theorem pairwise_filterMap_of {α β : Type} {R : α → α → Prop} {S : β → β → Prop}
    (f : β → Option α)
    (hf : ∀ a b x y, S a b → f a = some x → f b = some y → R x y) :
    ∀ {l : List β}, l.Pairwise S → (l.filterMap f).Pairwise R := by
  intro l hl
  induction hl with
  | nil => simp
  | @cons b l' hhead _ ih =>
    cases hfb : f b with
    | none => simpa [List.filterMap_cons, hfb] using ih
    | some x =>
      simp only [List.filterMap_cons, hfb]
      refine List.Pairwise.cons ?_ ih
      intro y hy
      rcases List.mem_filterMap.mp hy with ⟨b', hb', hfb'⟩
      exact hf b b' x y (hhead b' hb') hfb hfb'

theorem mem_scannedRange_iff {store : Store} {req : ReadRange}
    {kv : List Nat × List Nat} :
    kv ∈ scannedRange store req ↔
      kv ∈ store ∧ (!lexLt kv.1 req.start && lexLt kv.1 req.endKey) = true := by
  unfold scannedRange
  cases h : req.reverse <;>
    simp [h, dbRange, List.mem_reverse, List.mem_filter]

theorem dbRange_pairwise {store : Store} {s e : List Nat}
    (hs : store.Pairwise fun a b => lexLt a.1 b.1 = true) :
    (dbRange store s e).Pairwise fun a b => lexLt a.1 b.1 = true :=
  List.Pairwise.sublist (List.filter_sublist store) hs

theorem readOneRange_ne_err (store : Store) (req : ReadRange) :
    readOneRange store req ≠ ROutcome.err := by
  unfold readOneRange
  cases h : collectFlatten ((scannedRange store req).map decodeEntry) with
  | ok es => simp
  | err => exact absurd h (collectFlatten_ne_err _)
  | crash => simp

theorem readOneRange_ok_entries {store : Store} {req : ReadRange}
    {out : ReadRangeOutput} (h : readOneRange store req = .ok out) :
    out.entries = ((scannedRange store req).map decodeEntry).filterMap
      ROutcome.toOption := by
  unfold readOneRange at h
  cases hc : collectFlatten ((scannedRange store req).map decodeEntry) with
  | ok es =>
    rw [hc] at h
    injection h with h
    subst h
    exact eq_filterMap_of_collectFlatten_ok hc
  | err => rw [hc] at h; cases h
  | crash => rw [hc] at h; cases h

theorem readOneRange_ok_of_wf {store : Store} (req : ReadRange)
    (hwf : ∀ kv ∈ store, (LmdbDKvValue.bytes_decode kv.2).isOk = true) :
    ∃ out, readOneRange store req = .ok out := by
  have hnc : ∀ r ∈ (scannedRange store req).map decodeEntry,
      r ≠ ROutcome.crash := by
    intro r hr
    rcases List.mem_map.mp hr with ⟨kv, hkv, rfl⟩
    have hkvs : kv ∈ store := (mem_scannedRange_iff.mp hkv).1
    rcases ROutcome.isOk_iff.mp (hwf kv hkvs) with ⟨v, hv⟩
    simp [decodeEntry_ok_of kv hv]
  refine ⟨⟨((scannedRange store req).map decodeEntry).filterMap
    ROutcome.toOption⟩, ?_⟩
  unfold readOneRange
  rw [collectFlatten_ok _ hnc]

theorem readOneRange_crash_of {store : Store} {req : ReadRange}
    {kv : List Nat × List Nat} (hkv : kv ∈ scannedRange store req)
    (hc : LmdbDKvValue.bytes_decode kv.2 = .crash) :
    readOneRange store req = .crash := by
  have hmem : decodeEntry kv ∈ (scannedRange store req).map decodeEntry :=
    List.mem_map_of_mem decodeEntry hkv
  rw [decodeEntry_crash_iff.mpr hc] at hmem
  unfold readOneRange
  rw [collectFlatten_crash _ hmem]

theorem batchReadSpec_ok_elim {store : Store} :
    ∀ {reqs : List ReadRange} {res : List ReadRangeOutput},
      batchReadSpec store reqs = .ok res →
      res.length = reqs.length ∧
      ∀ i (hi : i < reqs.length) (hr : i < res.length),
        readOneRange store (reqs.get ⟨i, hi⟩) = .ok (res.get ⟨i, hr⟩) := by
  intro reqs
  induction reqs with
  | nil =>
    intro res h
    simp only [batchReadSpec] at h
    injection h with h
    subst h
    exact ⟨rfl, fun i hi _ => absurd hi (Nat.not_lt_zero i)⟩
  | cons req rest ih =>
    intro res h
    simp only [batchReadSpec] at h
    cases h1 : readOneRange store req with
    | ok out =>
      rw [h1] at h
      cases h2 : batchReadSpec store rest with
      | ok outs =>
        rw [h2] at h
        injection h with h
        subst h
        obtain ⟨hlen, hget⟩ := ih h2
        refine ⟨by simp [hlen], ?_⟩
        intro i hi hr
        cases i with
        | zero => simpa using h1
        | succ n =>
          have hn : n < rest.length := by simpa using hi
          have hrn : n < outs.length := by simpa using hr
          simpa using hget n hn hrn
      | err => rw [h2] at h; cases h
      | crash => rw [h2] at h; cases h
    | err => rw [h1] at h; cases h
    | crash => rw [h1] at h; cases h

theorem batchReadSpec_ok_of_wf {store : Store}
    (hwf : ∀ kv ∈ store, (LmdbDKvValue.bytes_decode kv.2).isOk = true) :
    ∀ reqs : List ReadRange, ∃ res, batchReadSpec store reqs = .ok res
  | [] => ⟨[], rfl⟩
  | req :: rest => by
    rcases readOneRange_ok_of_wf req hwf with ⟨out, h1⟩
    rcases batchReadSpec_ok_of_wf hwf rest with ⟨outs, h2⟩
    exact ⟨out :: outs, by simp [batchReadSpec, h1, h2]⟩

theorem batchReadSpec_crash_of {store : Store} :
    ∀ {reqs : List ReadRange} {req : ReadRange}, req ∈ reqs →
      readOneRange store req = .crash → batchReadSpec store reqs = .crash := by
  intro reqs
  induction reqs with
  | nil => intro req h _; cases h
  | cons r rest ih =>
    intro req hmem hc
    rcases List.mem_cons.mp hmem with rfl | hmem'
    · simp [batchReadSpec, hc]
    · cases h1 : readOneRange store r with
      | ok out => simp [batchReadSpec, h1, ih hmem' hc]
      | err => exact absurd h1 (readOneRange_ne_err store r)
      | crash => simp [batchReadSpec, h1]

theorem snapshot_read_eq_batch (store : Store) (reqs : List ReadRange)
    (o : SnapshotReadOptions) :
    snapshot_read store reqs o = batchReadSpec store reqs := by
  have hloop : ∀ (reqs' : List ReadRange) (acc : List ReadRangeOutput),
      snapshotReadLoop store reqs' acc =
        match batchReadSpec store reqs' with
        | .ok outs => .ok (acc ++ outs)
        | .err => .err
        | .crash => .crash := by
    intro reqs'
    induction reqs' with
    | nil => intro acc; simp [snapshotReadLoop, batchReadSpec]
    | cons req rest ih =>
      intro acc
      simp only [snapshotReadLoop, batchReadSpec]
      cases h1 : readOneRange store req with
      | ok out =>
        simp only [ih]
        cases h2 : batchReadSpec store rest <;> simp
      | err => rfl
      | crash => rfl
  rw [snapshot_read, hloop reqs []]
  cases batchReadSpec store reqs <;> simp

theorem batchReadSpec_ok_mem {store : Store} {reqs : List ReadRange}
    {res : List ReadRangeOutput} (h : batchReadSpec store reqs = .ok res)
    {out : ReadRangeOutput} (hout : out ∈ res) :
    ∃ req ∈ reqs, readOneRange store req = .ok out := by
  obtain ⟨hlen, hget⟩ := batchReadSpec_ok_elim h
  rcases List.mem_iff_get.mp hout with ⟨⟨i, hr⟩, rfl⟩
  have hi : i < reqs.length := by omega
  exact ⟨reqs.get ⟨i, hi⟩, List.get_mem _ _ _, hget i hi hr⟩

theorem natToLeBytes_length (k n : Nat) : (natToLeBytes k n).length = k := by
  induction k generalizing n with
  | zero => rfl
  | succ k ih => simp [natToLeBytes, ih]

theorem u64FromLeBytes_natToLeBytes (k n : Nat) :
    u64FromLeBytes (natToLeBytes k n) = n % 256 ^ k := by
  induction k generalizing n with
  | zero => simp [natToLeBytes, u64FromLeBytes, Nat.mod_one]
  | succ k ih =>
    rw [natToLeBytes, u64FromLeBytes, ih (n / 256), pow_succ', Nat.mod_mul]

/-! ## Claim theorems -/

/-- C1: for every well-formed value of each of the three variants
(`U64` i.e. Unsigned64, `Bytes`, `V8` i.e. Serialized) and every payload
length including zero, decoding the encoding yields the value back. -/
theorem decode_encode_roundtrip (v : KvValue) (h : v.wf) :
    LmdbDKvValue.bytes_decode (LmdbDKvValue.bytes_encode v) = .ok v := by
  cases v with
  | U64 n =>
    have hlen : (natToLeBytes 8 n).length = 8 := natToLeBytes_length 8 n
    have h' : n < 2 ^ 64 := h
    have hn : n % 18446744073709551616 = n := by
      apply Nat.mod_eq_of_lt
      norm_num at h'
      exact h'
    simp [LmdbDKvValue.bytes_encode, LmdbDKvValue.bytes_decode, hlen,
      u64ToLeBytes, u64FromLeBytes_natToLeBytes, hn]
  | Bytes bs => simp [LmdbDKvValue.bytes_encode, LmdbDKvValue.bytes_decode]
  | V8 bs => simp [LmdbDKvValue.bytes_encode, LmdbDKvValue.bytes_decode]

/-- Witness for C1 at a concrete value of each variant (including an empty
blob). -/
theorem decode_encode_roundtrip_witness :
    KvValue.wf (.U64 3) ∧
      LmdbDKvValue.bytes_decode (LmdbDKvValue.bytes_encode (.U64 3)) =
        .ok (.U64 3) ∧
    KvValue.wf (.Bytes []) ∧
      LmdbDKvValue.bytes_decode (LmdbDKvValue.bytes_encode (.Bytes [])) =
        .ok (.Bytes []) ∧
    KvValue.wf (.V8 [7, 250]) ∧
      LmdbDKvValue.bytes_decode (LmdbDKvValue.bytes_encode (.V8 [7, 250])) =
        .ok (.V8 [7, 250]) :=
  ⟨by unfold KvValue.wf; decide,
    decode_encode_roundtrip _ (by unfold KvValue.wf; decide),
    by unfold KvValue.wf; decide,
    decode_encode_roundtrip _ (by unfold KvValue.wf; decide),
    by unfold KvValue.wf; decide,
    decode_encode_roundtrip _ (by unfold KvValue.wf; decide)⟩

/-- C2 counterexample: on the empty input buffer the decoder does not return
an error value as the claim states — it crashes (the `split_at(1)` in the
source panics), so the failure is a crash, not a returned `FormatError`. -/
theorem decode_value_empty_not_err :
    LmdbDKvValue.bytes_decode [] = .crash ∧
      LmdbDKvValue.bytes_decode [] ≠ .err :=
  ⟨rfl, by decide⟩

/-- C2 amended: decoding fails by crashing (a panic, not a returned error
value) exactly when the buffer is empty or when the tag byte is `0` and the
remaining length is not exactly 8; the decoder never returns an error value,
and in the malformed tag-`0` case it never silently truncates or returns a
wrong numeric value (it crashes instead of returning anything). -/
theorem decode_value_failure_characterization (bytes : List Nat) :
    (LmdbDKvValue.bytes_decode bytes = .crash ↔
      bytes = [] ∨ ∃ rest, bytes = 0 :: rest ∧ rest.length ≠ 8) ∧
    LmdbDKvValue.bytes_decode bytes ≠ .err := by
  refine ⟨?_, bytes_decode_ne_err bytes⟩
  cases bytes with
  | nil => simp [LmdbDKvValue.bytes_decode]
  | cons t rest =>
    by_cases h0 : t = 0
    · subst h0
      by_cases h8 : rest.length = 8
      · simp [LmdbDKvValue.bytes_decode, h8]
      · simp [LmdbDKvValue.bytes_decode, h8]
    · by_cases h1 : t = 1
      · subst h1
        simp [LmdbDKvValue.bytes_decode]
      · simp [LmdbDKvValue.bytes_decode, h0, h1]

/-- C5: the encoder produces the tagged envelope — tag byte `0`/`1`/`2` for
U64/Bytes/Serialized, followed by the 8 little-endian bytes of the integer
(so the whole envelope is 9 bytes) or the raw blob verbatim; as a total Lean
function over values it never fails. -/
theorem encode_value_envelope (n : Nat) (bs bs' : List Nat) :
    LmdbDKvValue.bytes_encode (.U64 n) =
      0 :: [n % 2 ^ 8, n / 2 ^ 8 % 2 ^ 8, n / 2 ^ 16 % 2 ^ 8,
        n / 2 ^ 24 % 2 ^ 8, n / 2 ^ 32 % 2 ^ 8, n / 2 ^ 40 % 2 ^ 8,
        n / 2 ^ 48 % 2 ^ 8, n / 2 ^ 56 % 2 ^ 8] ∧
    (LmdbDKvValue.bytes_encode (.U64 n)).length = 9 ∧
    LmdbDKvValue.bytes_encode (.Bytes bs) = 1 :: bs ∧
    LmdbDKvValue.bytes_encode (.V8 bs') = 2 :: bs' := by
  refine ⟨?_, ?_, rfl, rfl⟩
  · simp only [LmdbDKvValue.bytes_encode, u64ToLeBytes, natToLeBytes,
      Nat.div_div_eq_div_mul]
    norm_num
  · simp [LmdbDKvValue.bytes_encode, u64ToLeBytes, natToLeBytes_length]

/-- C6: any non-empty buffer whose tag byte is neither `0` nor `1` decodes
successfully to a Serialized (`V8`) value holding exactly the bytes after the
tag. -/
theorem decode_unknown_tag (t : Nat) (bs : List Nat) (h0 : t ≠ 0) (h1 : t ≠ 1) :
    LmdbDKvValue.bytes_decode (t :: bs) = .ok (.V8 bs) := by
  simp [LmdbDKvValue.bytes_decode, h0, h1]

/-- Witness for C6 at tag byte `7`. -/
theorem decode_unknown_tag_witness :
    (7 : Nat) ≠ 0 ∧ (7 : Nat) ≠ 1 ∧
      LmdbDKvValue.bytes_decode (7 :: [1, 2]) = .ok (.V8 [1, 2]) :=
  ⟨by decide, by decide, decode_unknown_tag 7 [1, 2] (by decide) (by decide)⟩

/-- C7: the key codec is the identity transform in both directions, never
fails, and preserves the lexicographic byte order of keys exactly. -/
theorem key_codec_identity (k a b : List Nat) :
    LmdbDKvKey.bytes_decode (LmdbDKvKey.bytes_encode k) = .ok k ∧
    LmdbDKvKey.bytes_encode k = k ∧
    lexLt (LmdbDKvKey.bytes_encode a) (LmdbDKvKey.bytes_encode b) = lexLt a b :=
  ⟨rfl, rfl, rfl⟩

theorem readOneRange_rangeSpec {store : Store} {req : ReadRange}
    {out : ReadRangeOutput}
    (hsorted : store.Pairwise fun a b => lexLt a.1 b.1 = true)
    (h : readOneRange store req = .ok out) :
    rangeReadSpec store req out := by
  have hent := readOneRange_ok_entries h
  refine ⟨?_, ?_, ?_, ?_⟩
  · intro e
    rw [hent]
    constructor
    · intro he
      rcases List.mem_filterMap.mp he with ⟨r, hr, hsome⟩
      rcases List.mem_map.mp hr with ⟨kv, hkv, rfl⟩
      have hok := ROutcome.toOption_eq_some.mp hsome
      obtain ⟨hdec, hkey, hstamp⟩ := decodeEntry_ok_elim hok
      obtain ⟨hkvstore, hcond⟩ := mem_scannedRange_iff.mp hkv
      rw [Bool.and_eq_true] at hcond
      obtain ⟨hge, hlt⟩ := hcond
      rw [not_lexLt_eq] at hge
      refine ⟨⟨kv.2, ?_, hdec⟩, hstamp, ?_, ?_⟩
      · rw [hkey]
        simpa using hkvstore
      · rw [hkey]
        exact hge
      · rw [hkey]
        exact hlt
    · rintro ⟨⟨raw, hstore, hdec⟩, hstamp, hge, hlt⟩
      apply List.mem_filterMap.mpr
      refine ⟨decodeEntry (e.key, raw), List.mem_map_of_mem _ ?_, ?_⟩
      · apply mem_scannedRange_iff.mpr
        refine ⟨hstore, ?_⟩
        rw [Bool.and_eq_true, not_lexLt_eq]
        exact ⟨hge, hlt⟩
      · rw [decodeEntry_ok_of (e.key, raw) hdec]
        simp only [ROutcome.toOption]
        rw [← hstamp]
  · intro hrev
    rw [hent, List.filterMap_map]
    have hscan : (scannedRange store req).Pairwise
        fun a b => lexLt a.1 b.1 = true := by
      unfold scannedRange
      rw [hrev]
      simpa using dbRange_pairwise hsorted
    refine pairwise_filterMap_of _ ?_ hscan
    intro a b x y hS ha hb
    have hxa := decodeEntry_ok_elim (ROutcome.toOption_eq_some.mp ha)
    have hyb := decodeEntry_ok_elim (ROutcome.toOption_eq_some.mp hb)
    rw [hxa.2.1, hyb.2.1]
    exact hS
  · intro hrev
    rw [hent, List.filterMap_map]
    have hscan : (scannedRange store req).Pairwise
        fun a b => lexLt b.1 a.1 = true := by
      unfold scannedRange
      rw [hrev]
      simpa using List.pairwise_reverse.mpr (dbRange_pairwise hsorted)
    refine pairwise_filterMap_of _ ?_ hscan
    intro a b x y hS ha hb
    have hxa := decodeEntry_ok_elim (ROutcome.toOption_eq_some.mp ha)
    have hyb := decodeEntry_ok_elim (ROutcome.toOption_eq_some.mp hb)
    rw [hxa.2.1, hyb.2.1]
    exact hS
  · intro heq
    rw [hent]
    have hnil : dbRange store req.start req.endKey = [] := by
      unfold dbRange
      rw [← heq]
      apply List.filter_eq_nil_iff.mpr
      intro kv _
      cases hl : lexLt kv.1 req.start <;> simp [hl]
    have hscan : scannedRange store req = [] := by
      unfold scannedRange
      cases hrev : req.reverse <;> simp [hnil]
    simp [hscan]

/-- C3: for every batch of range requests (over a snapshot whose keys are in
the engine's strict lexicographic order and whose stored values decode),
`snapshot_read` returns one output per request, and each output holds exactly
the entries with `start ≤ key < end` in lexicographic byte order — ascending,
or descending when `reverse` is set — so a request with `start = end` yields
zero entries. -/
theorem snapshot_read_range_correct (store : Store) (o : SnapshotReadOptions)
    (reqs : List ReadRange)
    (hsorted : store.Pairwise fun a b => lexLt a.1 b.1 = true)
    (hwf : ∀ kv ∈ store, (LmdbDKvValue.bytes_decode kv.2).isOk = true) :
    ∃ res, snapshot_read store reqs o = .ok res ∧ res.length = reqs.length ∧
      ∀ i (hi : i < reqs.length) (hr : i < res.length),
        rangeReadSpec store (reqs.get ⟨i, hi⟩) (res.get ⟨i, hr⟩) := by
  rcases batchReadSpec_ok_of_wf hwf reqs with ⟨res, hres⟩
  obtain ⟨hlen, hget⟩ := batchReadSpec_ok_elim hres
  refine ⟨res, ?_, hlen, ?_⟩
  · rw [snapshot_read_eq_batch]
    exact hres
  · intro i hi hr
    exact readOneRange_rangeSpec hsorted (hget i hi hr)

/-- Witness for C3: a table with keys `a, b, c, d` (bytes 97..100), a forward
request `[b, d)`, the same request reversed, and an empty request `[b, b)`. -/
theorem snapshot_read_range_correct_witness :
    (([([97], [1, 5]), ([98], [1, 6]), ([99], [1, 7]), ([100], [1, 8])] :
        Store).Pairwise fun a b => lexLt a.1 b.1 = true) ∧
    (∀ kv ∈ ([([97], [1, 5]), ([98], [1, 6]), ([99], [1, 7]),
        ([100], [1, 8])] : Store),
      (LmdbDKvValue.bytes_decode kv.2).isOk = true) ∧
    (∃ res,
      snapshot_read
          [([97], [1, 5]), ([98], [1, 6]), ([99], [1, 7]), ([100], [1, 8])]
          [⟨[98], [100], false⟩, ⟨[98], [100], true⟩, ⟨[98], [98], false⟩]
          ⟨.strong⟩ = .ok res ∧
      res.length =
        ([⟨[98], [100], false⟩, ⟨[98], [100], true⟩, ⟨[98], [98], false⟩] :
          List ReadRange).length ∧
      ∀ i (hi : i < ([⟨[98], [100], false⟩, ⟨[98], [100], true⟩,
            ⟨[98], [98], false⟩] : List ReadRange).length)
        (hr : i < res.length),
        rangeReadSpec
          [([97], [1, 5]), ([98], [1, 6]), ([99], [1, 7]), ([100], [1, 8])]
          (([⟨[98], [100], false⟩, ⟨[98], [100], true⟩,
            ⟨[98], [98], false⟩] : List ReadRange).get ⟨i, hi⟩)
          (res.get ⟨i, hr⟩)) := by
  have hs : (([([97], [1, 5]), ([98], [1, 6]), ([99], [1, 7]),
      ([100], [1, 8])] : Store).Pairwise fun a b => lexLt a.1 b.1 = true) := by
    decide
  have hw : ∀ kv ∈ ([([97], [1, 5]), ([98], [1, 6]), ([99], [1, 7]),
      ([100], [1, 8])] : Store),
      (LmdbDKvValue.bytes_decode kv.2).isOk = true := by decide
  exact ⟨hs, hw, snapshot_read_range_correct _ _ _ hs hw⟩

/-- C4 counterexample: with a stored entry whose value bytes are the
malformed envelope `[0]` inside the requested range, `snapshot_read` does not
surface a returned error for that read as the claim states — the decode panic
crashes the whole call. -/
theorem snapshot_read_undecodable_not_err :
    snapshot_read [([97], [0])] [⟨[], [255], false⟩] ⟨.strong⟩ = .crash ∧
      snapshot_read [([97], [0])] [⟨[], [255], false⟩] ⟨.strong⟩ ≠ .err := by
  constructor
  · decide
  · decide

/-- C4 amended: if any stored entry within a requested range has value bytes
that fail to decode, `snapshot_read` crashes (the decode panic propagates out
of the call); it never returns a result sequence that silently omits the
undecodable entry, and never returns an error value. -/
theorem snapshot_read_undecodable_crashes (store : Store)
    (o : SnapshotReadOptions) (reqs : List ReadRange) (req : ReadRange)
    (kv : List Nat × List Nat) (hreq : req ∈ reqs) (hkv : kv ∈ store)
    (hge : lexLe req.start kv.1 = true) (hlt : lexLt kv.1 req.endKey = true)
    (hc : LmdbDKvValue.bytes_decode kv.2 = .crash) :
    snapshot_read store reqs o = .crash := by
  rw [snapshot_read_eq_batch]
  apply batchReadSpec_crash_of hreq
  apply readOneRange_crash_of _ hc
  apply mem_scannedRange_iff.mpr
  refine ⟨hkv, ?_⟩
  rw [Bool.and_eq_true, not_lexLt_eq]
  exact ⟨hge, hlt⟩

/-- Witness for the amended C4 at the concrete malformed store. -/
theorem snapshot_read_undecodable_crashes_witness :
    (⟨[], [255], false⟩ : ReadRange) ∈ [(⟨[], [255], false⟩ : ReadRange)] ∧
    (([97], [0]) : List Nat × List Nat) ∈ ([([97], [0])] : Store) ∧
    lexLe [] [97] = true ∧ lexLt [97] [255] = true ∧
    LmdbDKvValue.bytes_decode [0] = .crash ∧
    snapshot_read [([97], [0])] [⟨[], [255], false⟩] ⟨.eventual⟩ = .crash :=
  ⟨by decide, by decide, by decide, by decide, by decide,
    snapshot_read_undecodable_crashes [([97], [0])] ⟨.eventual⟩
      [⟨[], [255], false⟩] ⟨[], [255], false⟩ ([97], [0]) (by decide)
      (by decide) (by decide) (by decide) (by decide)⟩

/-- C8: every entry any `snapshot_read` result carries has the fixed all-zero
10-byte versionstamp, for every request batch and every table state. -/
theorem snapshot_read_zero_versionstamp (store : Store)
    (o : SnapshotReadOptions) (reqs : List ReadRange)
    (res : List ReadRangeOutput) (h : snapshot_read store reqs o = .ok res) :
    ∀ out ∈ res, ∀ e ∈ out.entries, e.versionstamp = List.replicate 10 0 := by
  rw [snapshot_read_eq_batch] at h
  intro out hout e he
  rcases batchReadSpec_ok_mem h hout with ⟨req, _, hro⟩
  have hent := readOneRange_ok_entries hro
  rw [hent] at he
  rcases List.mem_filterMap.mp he with ⟨r, hr, hsome⟩
  rcases List.mem_map.mp hr with ⟨kv, _, rfl⟩
  exact (decodeEntry_ok_elim (ROutcome.toOption_eq_some.mp hsome)).2.2

/-- Witness for C8 at a one-entry table. -/
theorem snapshot_read_zero_versionstamp_witness :
    snapshot_read [([97], [1, 5])] [⟨[], [255], false⟩] ⟨.strong⟩ =
      .ok [⟨[⟨[97], .Bytes [5], List.replicate 10 0⟩]⟩] ∧
    ∀ out ∈ [(⟨[⟨[97], .Bytes [5], List.replicate 10 0⟩]⟩ : ReadRangeOutput)],
      ∀ e ∈ out.entries, e.versionstamp = List.replicate 10 0 :=
  ⟨by decide,
    snapshot_read_zero_versionstamp [([97], [1, 5])] ⟨.strong⟩
      [⟨[], [255], false⟩] [⟨[⟨[97], .Bytes [5], List.replicate 10 0⟩]⟩]
      (by decide)⟩

/-- C9: the whole batch is served from the one snapshot taken before the
first request is processed — whenever `snapshot_read` returns a result list,
its `i`-th element is exactly the single-request read of the `i`-th request
against that same snapshot `store`, so no request can observe any other
state. -/
theorem snapshot_read_single_snapshot (store : Store)
    (o : SnapshotReadOptions) (reqs : List ReadRange)
    (res : List ReadRangeOutput) (h : snapshot_read store reqs o = .ok res) :
    res.length = reqs.length ∧
    ∀ i (hi : i < reqs.length) (hr : i < res.length),
      readOneRange store (reqs.get ⟨i, hi⟩) = .ok (res.get ⟨i, hr⟩) := by
  rw [snapshot_read_eq_batch] at h
  exact batchReadSpec_ok_elim h

/-- Witness for C9 with a two-request batch over a two-entry snapshot. -/
theorem snapshot_read_single_snapshot_witness :
    snapshot_read [([97], [1, 5]), ([98], [1, 6])]
        [⟨[97], [98], false⟩, ⟨[97], [99], true⟩] ⟨.strong⟩ =
      .ok [⟨[⟨[97], .Bytes [5], List.replicate 10 0⟩]⟩,
        ⟨[⟨[98], .Bytes [6], List.replicate 10 0⟩,
          ⟨[97], .Bytes [5], List.replicate 10 0⟩]⟩] ∧
    (([⟨[⟨[97], .Bytes [5], List.replicate 10 0⟩]⟩,
        ⟨[⟨[98], .Bytes [6], List.replicate 10 0⟩,
          ⟨[97], .Bytes [5], List.replicate 10 0⟩]⟩] :
        List ReadRangeOutput).length =
      ([⟨[97], [98], false⟩, ⟨[97], [99], true⟩] : List ReadRange).length ∧
    ∀ i (hi : i < ([⟨[97], [98], false⟩, ⟨[97], [99], true⟩] :
          List ReadRange).length)
      (hr : i < ([⟨[⟨[97], .Bytes [5], List.replicate 10 0⟩]⟩,
          ⟨[⟨[98], .Bytes [6], List.replicate 10 0⟩,
            ⟨[97], .Bytes [5], List.replicate 10 0⟩]⟩] :
          List ReadRangeOutput).length),
      readOneRange [([97], [1, 5]), ([98], [1, 6])]
          (([⟨[97], [98], false⟩, ⟨[97], [99], true⟩] :
            List ReadRange).get ⟨i, hi⟩) =
        .ok (([⟨[⟨[97], .Bytes [5], List.replicate 10 0⟩]⟩,
          ⟨[⟨[98], .Bytes [6], List.replicate 10 0⟩,
            ⟨[97], .Bytes [5], List.replicate 10 0⟩]⟩] :
          List ReadRangeOutput).get ⟨i, hr⟩)) :=
  ⟨by decide,
    snapshot_read_single_snapshot [([97], [1, 5]), ([98], [1, 6])] ⟨.strong⟩
      [⟨[97], [98], false⟩, ⟨[97], [99], true⟩]
      [⟨[⟨[97], .Bytes [5], List.replicate 10 0⟩]⟩,
        ⟨[⟨[98], .Bytes [6], List.replicate 10 0⟩,
          ⟨[97], .Bytes [5], List.replicate 10 0⟩]⟩]
      (by decide)⟩

/-- C10: the result of `snapshot_read` does not depend on the
`SnapshotReadOptions` argument — the source binds it to `_` — so two calls
differing only in the options value return identical results. -/
theorem snapshot_read_options_irrelevant (store : Store)
    (reqs : List ReadRange) (o1 o2 : SnapshotReadOptions) :
    snapshot_read store reqs o1 = snapshot_read store reqs o2 := rfl

end DenokvLmdb
